import Mathlib

/-!
Shallow embedding of the krww-manager deposit-to-hedge pipeline.

Numbers (JS `number`) are modelled as rationals, Redis as an explicit
`Store` value threaded through the operations, and each outbound HTTP
interaction as an explicit environment value describing the outcome the
remote venue produced (`none` standing for a thrown request).  Functions
are translated from the TypeScript sources in `src/` statement by
statement; an adapter whose `catch` block swallows its own error is a
total function returning the fallback position, an adapter that rethrows
is an `Except`-valued function.
-/

set_option maxRecDepth 4000

/-- Venue identifier, the `type` field of a HedgePosition
(`src/types/index.ts`). -/
inductive VenueType where
  | binance
  | cme
  | hyperliquid
  | bybit
deriving DecidableEq, Repr

/-- The string the venue tag serialises to inside Redis keys
(`hedge:${txHash}:${position.type}`). -/
def VenueType.str : VenueType → String
  | .binance => "binance"
  | .cme => "cme"
  | .hyperliquid => "hyperliquid"
  | .bybit => "bybit"

/-- Position lifecycle state (`src/types/index.ts`). -/
inductive PositionStatus where
  | pending
  | opened
  | closed
  | failed
deriving DecidableEq, Repr

/-- HedgePosition record (`src/types/index.ts`); dates are modelled as
natural-number timestamps. -/
structure HedgePosition where
  id : String
  type : VenueType
  symbol : String
  side : String
  amount : ℚ
  price : ℚ
  status : PositionStatus
  createdAt : ℕ
  updatedAt : ℕ
deriving DecidableEq, Repr

/-- HedgeRequest, the queue payload (`src/types/index.ts`). -/
structure HedgeRequest where
  depositTxHash : String
  ethAmount : ℚ
  krwwAmount : ℚ
  userAddress : String
deriving DecidableEq, Repr

/-- The object written by `HedgeService.logHedgeExecution`
(`src/services/hedgeService.ts`, lines 198-221). -/
structure ExecutionLog where
  txHash : String
  ethAmount : ℚ
  krwwAmount : ℚ
  userAddress : String
  positions : List HedgePosition
  successCount : ℕ
  totalHedges : ℕ
  timestamp : ℕ
deriving DecidableEq, Repr

/-- DepositEvent record (`src/types/index.ts`); the on-chain amounts are
kept as rationals (the decimal value of the `formatEther` string). -/
structure DepositEvent where
  user : String
  amount : ℚ
  krwwMinted : ℚ
  blockNumber : ℕ
  transactionHash : String
  timestamp : ℕ
deriving DecidableEq, Repr

/-! ### The durable store

Redis is modelled as association lists with the single-key semantics the
code relies on: `SET`/`SETEX` is an upsert, `SADD` adds a member only if
absent, `ZADD` updates the score of an existing member (a sorted set
holds each member once), `LPUSH` prepends. -/

/-- `SET`-style upsert into an association list: replaces the binding of
`k` if present, appends otherwise. -/
def upsert {α β : Type} [DecidableEq α] (k : α) (v : β) : List (α × β) → List (α × β)
  | [] => [(k, v)]
  | (k1, v1) :: rest => if k1 = k then (k, v) :: rest else (k1, v1) :: upsert k v rest

/-- `GET`-style lookup in an association list. -/
def lookupA {α β : Type} [DecidableEq α] (k : α) : List (α × β) → Option β
  | [] => none
  | (k1, v) :: rest => if k1 = k then some v else lookupA k rest

/-- `SADD`: set-membership add. -/
def sAdd {α : Type} [DecidableEq α] (x : α) (l : List α) : List α :=
  if x ∈ l then l else l ++ [x]

/-- The whole Redis keyspace the pipeline touches. -/
structure Store where
  /-- `hedge:${txHash}:${type}` keys (key is the pair, value the position). -/
  positions : List ((String × String) × HedgePosition)
  /-- `hedge_index:${txHash}` sets, flattened to (txHash, positionId) pairs. -/
  posIndex : List (String × String)
  /-- `hedge_log:${txHash}` keys. -/
  logs : List (String × ExecutionLog)
  /-- `deposit:${txHash}` keys. -/
  deposits : List (String × DepositEvent)
  /-- `deposits:timestamp` sorted set: member txHash mapped to its score. -/
  depIndex : List (String × ℚ)
  /-- `hedge_requests` list (LPUSH prepends). -/
  hedgeQueue : List HedgeRequest
  /-- `last_processed_block` key. -/
  lastProcessedBlock : Option ℕ
deriving DecidableEq, Repr

/-- The store with every key absent. -/
def emptyStore : Store :=
  { positions := [], posIndex := [], logs := [], deposits := [], depIndex := [],
    hedgeQueue := [], lastProcessedBlock := none }

/-- `positionId.split('_')[0]`: the characters of the id before the first
underscore (`HedgeService.getHedgeByTxHash`, line 229). -/
def venueKeyOfId (pid : String) : String :=
  String.mk (pid.data.takeWhile (fun c => c ≠ '_'))

/-! ### Binance adapter (`src/services/binanceService.ts`)

`createShortPosition` rethrows its errors to the orchestrator; its HTTP
interactions are modelled by `BinanceEnv` (`none` = the call threw). -/

/-- The LOT_SIZE filter of a Binance symbol. -/
structure LotSize where
  minQty : ℚ
  stepSize : ℚ
deriving DecidableEq, Repr

/-- Fields of the Binance order response the code reads. -/
structure BinanceOrderData where
  orderId : String
  executedQty : ℚ
  cummulativeQuoteQty : ℚ
  status : String
  transactTime : ℕ
deriving DecidableEq, Repr

/-- Outcomes of the HTTP calls one `BinanceService.createShortPosition`
run makes. `exchangeInfoResult`: `none` = request threw, `some none` =
symbol absent, `some (some lot)` = symbol found with LOT_SIZE filter
`lot` (`none` inside would mean no LOT_SIZE filter, giving the 0.001
defaults). -/
structure BinanceEnv where
  exchangeInfoResult : Option (Option (Option LotSize))
  priceResult : Option ℚ
  orderResult : Option BinanceOrderData
  now : ℕ
deriving DecidableEq, Repr

/-- `Math.floor(ethAmount / stepSize) * stepSize` then
`Math.max(quantity, minQty)` (`binanceService.ts`, lines 161-162). -/
def binanceOrderQuantity (ethAmount stepSize minQty : ℚ) : ℚ :=
  max ((⌊ethAmount / stepSize⌋ : ℚ) * stepSize) minQty

/-- `BinanceService.createShortPosition` (lines 143-190): throws
(`Except.error`) on any failed HTTP call or missing symbol, otherwise
builds a position from the order response. -/
def BinanceService.createShortPosition (symbol : String) (ethAmount : ℚ)
    (env : BinanceEnv) : Except Unit HedgePosition :=
  match env.exchangeInfoResult with
  | none => .error ()
  | some none => .error ()
  | some (some lot) =>
    match env.priceResult with
    | none => .error ()
    | some _currentPrice =>
      let minQty := (lot.map LotSize.minQty).getD (1/1000)
      let stepSize := (lot.map LotSize.stepSize).getD (1/1000)
      let _quantity := binanceOrderQuantity ethAmount stepSize minQty
      match env.orderResult with
      | none => .error ()
      | some od =>
        let t := if od.transactTime = 0 then env.now else od.transactTime
        .ok { id := "binance_" ++ od.orderId
              type := .binance
              symbol := symbol
              side := "short"
              amount := od.executedQty
              price := od.cummulativeQuoteQty / od.executedQty
              status := if od.status = "FILLED" then .opened else .pending
              createdAt := t
              updatedAt := t }

/-! ### CME adapter (`src/services/cmeService.ts`)

`createKRWUSDShortPosition` catches every error of its own body and
returns a synthetic `failed` position, so it is a total function. -/

/-- Fields of the CME order response the code reads. -/
structure CMEOrderData where
  orderId : String
  price : ℚ
  status : String
  timestamp : ℕ
deriving DecidableEq, Repr

/-- Outcomes of the HTTP calls one `createKRWUSDShortPosition` run
makes; `priceResult = none` means the market-data call threw (the code
then falls back to the hard-coded 0.00075 rate), `orderResult = none`
means the order POST threw. -/
structure CMEEnv where
  priceResult : Option ℚ
  orderResult : Option CMEOrderData
  now : ℕ
deriving DecidableEq, Repr

/-- `CMEService.getCurrentKRWUSDPrice` (lines 130-138): the quoted
lastPrice, or 0.00075 when the request fails. -/
def CMEService.getCurrentKRWUSDPrice (env : CMEEnv) : ℚ :=
  env.priceResult.getD (3/4000)

/-- `Math.floor(usdValue / (contractSize / krwusdPrice))` with
`contractSize = 125000` (lines 54-55). -/
def cmeNumberOfContracts (usdValue krwusdPrice : ℚ) : ℤ :=
  ⌊usdValue / (125000 / krwusdPrice)⌋

/-- The fallback position the CME catch-block returns (lines 90-100). -/
def cmeFallbackPosition (usdValue : ℚ) (now : ℕ) : HedgePosition :=
  { id := "cme_fallback_" ++ toString now
    type := .cme
    symbol := "KRW/USD"
    side := "short"
    amount := usdValue
    price := 0
    status := .failed
    createdAt := now
    updatedAt := now }

/-- `CMEService.createKRWUSDShortPosition` (lines 49-104): total; a zero
contract count or a thrown order POST lands in the catch-block, whose
fallback `failed` position is returned to the caller (never rethrown). -/
def CMEService.createKRWUSDShortPosition (usdValue : ℚ) (env : CMEEnv) : HedgePosition :=
  let krwusdPrice := CMEService.getCurrentKRWUSDPrice env
  let n := cmeNumberOfContracts usdValue krwusdPrice
  if n = 0 then cmeFallbackPosition usdValue env.now
  else
    match env.orderResult with
    | none => cmeFallbackPosition usdValue env.now
    | some od =>
      let t := if od.timestamp = 0 then env.now else od.timestamp
      { id := "cme_" ++ od.orderId
        type := .cme
        symbol := "KRW/USD"
        side := "short"
        amount := (n : ℚ)
        price := if od.price = 0 then krwusdPrice else od.price
        status := if od.status = "FILLED" then .opened else .pending
        createdAt := t
        updatedAt := t }

/-! ### Hyperliquid adapter (`src/services/hyperliquidService.ts`)

`createShortPosition` catches every error and returns a `failed`
fallback position, so it is total. -/

/-- The first entry of `response.data.statuses` the code inspects. -/
structure HLStatus where
  resting : Option ℕ
  filled : Option (ℚ × ℚ)
deriving DecidableEq, Repr

/-- Outcomes of the HTTP calls one Hyperliquid `createShortPosition` run
makes: `markPx = none` = market-data call threw; `postResult = none` =
the exchange POST threw; otherwise the response status string and the
first order status (absent when `statuses` is missing or empty, which
the catch-block also turns into the fallback). -/
structure HLEnv where
  markPx : Option ℚ
  postResult : Option (String × Option HLStatus)
  now : ℕ
deriving DecidableEq, Repr

/-- The fallback position the Hyperliquid catch-block returns
(lines 117-127). -/
def hlFailedPosition (coin : String) (ethAmount : ℚ) (now : ℕ) : HedgePosition :=
  { id := "hyperliquid_" ++ ("failed_" ++ toString now)
    type := .hyperliquid
    symbol := coin
    side := "short"
    amount := ethAmount
    price := 0
    status := .failed
    createdAt := now
    updatedAt := now }

/-- `HyperliquidService.createShortPosition` (lines 58-131): total;
on an ok response with a first status, the position is `opened` iff
the status reports a fill, else `pending`; every other path yields the
`failed` fallback. -/
def HyperliquidService.createShortPosition (coin : String) (ethAmount : ℚ)
    (env : HLEnv) : HedgePosition :=
  match env.markPx with
  | none => hlFailedPosition coin ethAmount env.now
  | some px =>
    match env.postResult with
    | none => hlFailedPosition coin ethAmount env.now
    | some (st, st0) =>
      if st = "ok" then
        match st0 with
        | some os =>
          { id := "hyperliquid_" ++ (match os.resting with
              | some oid => toString oid
              | none => toString env.now)
            type := .hyperliquid
            symbol := coin
            side := "short"
            amount := ethAmount
            price := px
            status := if os.filled.isSome then .opened else .pending
            createdAt := env.now
            updatedAt := env.now }
        | none => hlFailedPosition coin ethAmount env.now
      else hlFailedPosition coin ethAmount env.now

/-! ### Bybit adapter (`src/unnamed/part_003`, BybitService)

`createShortPosition` catches every error and returns a `failed`
fallback position, so it is total. -/

/-- Fields of the Bybit realtime order status the code reads. -/
structure BybitOrderStatusData where
  orderStatus : String
  avgPrice : ℚ
deriving DecidableEq, Repr

/-- Outcomes of the HTTP calls one Bybit `createShortPosition` run
makes: ticker price, instrument `(qtyStep, minOrderQty)`, order POST
result `(retCode, orderId)`, and the follow-up order-status query
(`none` anywhere = the call threw, landing in the catch-block). -/
structure BybitEnv where
  tickerPrice : Option ℚ
  instrument : Option (ℚ × ℚ)
  orderResult : Option (ℤ × String)
  orderStatusResult : Option BybitOrderStatusData
  now : ℕ
deriving DecidableEq, Repr

/-- `Math.floor(ethAmount / qtyStep) * qtyStep` then
`Math.max(positionSize, minOrderQty)` (part_003, lines 94-95). -/
def bybitPositionSize (ethAmount qtyStep minOrderQty : ℚ) : ℚ :=
  max ((⌊ethAmount / qtyStep⌋ : ℚ) * qtyStep) minOrderQty

/-- The fallback position the Bybit catch-block returns
(part_003, lines 140-150). -/
def bybitFailedPosition (symbol : String) (ethAmount : ℚ) (now : ℕ) : HedgePosition :=
  { id := "bybit_" ++ ("failed_" ++ toString now)
    type := .bybit
    symbol := symbol
    side := "short"
    amount := ethAmount
    price := 0
    status := .failed
    createdAt := now
    updatedAt := now }

/-- `BybitService.createShortPosition` (part_003, lines 81-154): total;
a nonzero retCode throws into the catch-block, as does a failing
follow-up status query; a `Filled` status upgrades the position to
`opened` with the average fill price. -/
def BybitService.createShortPosition (symbol : String) (ethAmount : ℚ)
    (env : BybitEnv) : HedgePosition :=
  match env.tickerPrice with
  | none => bybitFailedPosition symbol ethAmount env.now
  | some currentPrice =>
    match env.instrument with
    | none => bybitFailedPosition symbol ethAmount env.now
    | some (qtyStep, minOrderQty) =>
      let positionSize := bybitPositionSize ethAmount qtyStep minOrderQty
      match env.orderResult with
      | none => bybitFailedPosition symbol ethAmount env.now
      | some (retCode, orderId) =>
        if retCode = 0 then
          match env.orderStatusResult with
          | none => bybitFailedPosition symbol ethAmount env.now
          | some os =>
            { id := "bybit_" ++ orderId
              type := .bybit
              symbol := symbol
              side := "short"
              amount := positionSize
              price := if os.orderStatus = "Filled" then os.avgPrice else currentPrice
              status := if os.orderStatus = "Filled" then .opened else .pending
              createdAt := env.now
              updatedAt := env.now }
        else bybitFailedPosition symbol ethAmount env.now

/-! ### Hedge orchestrator (`src/services/hedgeService.ts`) -/

/-- `this.redis.sMembers(hedge_index:txHash)`: the member ids of the
per-deposit index set. -/
def sMembersIndex (s : Store) (txHash : String) : List String :=
  (s.posIndex.filter (fun e => e.1 = txHash)).map Prod.snd

/-- `HedgeService.getHedgeByTxHash` (lines 223-243): for each indexed
position id, derive the venue from the id prefix, read the
`hedge:${txHash}:${type}` key, and keep the hits. -/
def getHedgeByTxHash (s : Store) (txHash : String) : List HedgePosition :=
  (sMembersIndex s txHash).filterMap
    (fun pid => lookupA (txHash, venueKeyOfId pid) s.positions)

/-- `HedgeService.storeHedgePosition` (lines 185-196): SETEX the
position under `hedge:${txHash}:${type}` and SADD its id into
`hedge_index:${txHash}`. -/
def storeHedgePosition (txHash : String) (p : HedgePosition) (s : Store) : Store :=
  { s with positions := upsert (txHash, p.type.str) p s.positions
           posIndex := sAdd (txHash, p.id) s.posIndex }

/-- `HedgeService.logHedgeExecution` (lines 198-221): write one
ExecutionLog under `hedge_log:${txHash}`; `totalHedges` is the literal 2
the source hard-codes. -/
def logHedgeExecution (request : HedgeRequest) (positions : List HedgePosition)
    (successCount : ℕ) (now : ℕ) (s : Store) : Store :=
  let executionLog : ExecutionLog :=
    { txHash := request.depositTxHash
      ethAmount := request.ethAmount
      krwwAmount := request.krwwAmount
      userAddress := request.userAddress
      positions := positions
      successCount := successCount
      totalHedges := 2
      timestamp := now }
  { s with logs := upsert request.depositTxHash executionLog s.logs }

/-- Status test of a settled promise (`result.status === 'fulfilled'`). -/
def exceptIsOk {ε α : Type} : Except ε α → Bool
  | .ok _ => true
  | .error _ => false

/-- The value of a fulfilled promise, `none` for a rejected one. -/
def exceptValue {ε α : Type} : Except ε α → Option α
  | .ok a => some a
  | .error _ => none

/-- All remote outcomes one `executeHedge` run depends on: the
Binance adapter HTTP outcomes, the ETHUSDT price that
`executeCMEHedge` fetches (`none` = it threw, rejecting that branch),
and the CME / Hyperliquid / Bybit adapter outcomes. -/
structure ExecEnv where
  binance : BinanceEnv
  ethPrice : Option ℚ
  cme : CMEEnv
  hl : HLEnv
  bybit : BybitEnv
  now : ℕ
deriving DecidableEq, Repr

/-- `HedgeService.executeBinanceHedge` (lines 126-138): calls the
adapter on ETHUSDT and rethrows its error. -/
def executeBinanceHedge (request : HedgeRequest) (env : BinanceEnv) :
    Except Unit HedgePosition :=
  BinanceService.createShortPosition "ETHUSDT" request.ethAmount env

/-- `HedgeService.executeCMEHedge` (lines 140-155): fetches the ETH
price from Binance (a throw here rejects the whole branch), converts the
ETH amount to USD and calls the total CME adapter. -/
def executeCMEHedge (request : HedgeRequest) (ethPrice : Option ℚ)
    (env : CMEEnv) : Except Unit HedgePosition :=
  match ethPrice with
  | none => .error ()
  | some p => .ok (CMEService.createKRWUSDShortPosition (request.ethAmount * p) env)

/-- `HedgeService.executeHyperliquidHedge` (lines 157-169): the adapter
is total, so this branch always fulfils. -/
def executeHyperliquidHedge (request : HedgeRequest) (env : HLEnv) :
    Except Unit HedgePosition :=
  .ok (HyperliquidService.createShortPosition "ETH" request.ethAmount env)

/-- `HedgeService.executeBybitHedge` (lines 171-183): the adapter is
total, so this branch always fulfils. -/
def executeBybitHedge (request : HedgeRequest) (env : BybitEnv) :
    Except Unit HedgePosition :=
  .ok (BybitService.createShortPosition "ETHUSDT" request.ethAmount env)

/-- The list `Promise.allSettled` resolves with (lines 80-87), in the
order the promises are created. -/
def fanOutResults (request : HedgeRequest) (env : ExecEnv) :
    List (Except Unit HedgePosition) :=
  [executeBinanceHedge request env.binance,
   executeCMEHedge request env.ethPrice env.cme,
   executeHyperliquidHedge request env.hl,
   executeBybitHedge request env.bybit]

/-- `HedgeService.executeHedge` (lines 68-124).  Returns the store after
the call together with the number of venue adapters invoked (0 when the
idempotency guard fires, 4 on a fan-out).  Fulfilled results are counted
as successes and collected; rejected results are only logged. -/
def executeHedge (request : HedgeRequest) (env : ExecEnv) (s : Store) : Store × ℕ :=
  if (getHedgeByTxHash s request.depositTxHash).length > 0 then (s, 0)
  else
    let results := fanOutResults request env
    let successCount := (results.filter exceptIsOk).length
    let hedgePositions := results.filterMap exceptValue
    let s1 := hedgePositions.foldl (fun st p => storeHedgePosition request.depositTxHash p st) s
    (logHedgeExecution request hedgePositions successCount env.now s1, 4)

/-! ### Close-out (`HedgeService.closeHedgePositions`, lines 255-305)

Each adapter `closePosition` catches its own errors and returns a
boolean, so one close call is a total boolean function of its HTTP
outcomes, modelled by `CloseCallEnv`. -/

/-- Outcomes of the HTTP calls one close call makes: `postStatus = none`
= the close POST threw; `retCode` is Bybit's response code; `statusQuery`
is Bybit's follow-up order-status result (`none` = it threw);
`hlFilled` is whether Hyperliquid reports the close order filled. -/
structure CloseCallEnv where
  postStatus : Option String
  retCode : ℤ
  statusQuery : Option String
  hlFilled : Bool
deriving DecidableEq, Repr

/-- `BinanceService.closePosition` (lines 192-210): true iff the buy
order went through with status FILLED; any throw yields false. -/
def BinanceService.closePosition (_orderId _symbol : String) (_qty : ℚ)
    (env : CloseCallEnv) : Bool :=
  match env.postStatus with
  | none => false
  | some st => st = "FILLED"

/-- `CMEService.closePosition` (lines 106-128): true iff the buy order
went through with status FILLED; any throw yields false. -/
def CMEService.closePosition (_orderId : String) (_qty : ℚ)
    (env : CloseCallEnv) : Bool :=
  match env.postStatus with
  | none => false
  | some st => st = "FILLED"

/-- `HyperliquidService.closePosition` (lines 133-172): true iff the
response status is ok and the order filled; any throw yields false. -/
def HyperliquidService.closePosition (_coin : String) (_size : ℚ)
    (env : CloseCallEnv) : Bool :=
  match env.postStatus with
  | none => false
  | some st => st = "ok" && env.hlFilled

/-- `BybitService.closePosition` (part_003, lines 156-190): retCode 0
then a Filled status query; a throw anywhere (including in the status
query) yields false. -/
def BybitService.closePosition (_symbol : String) (_size : ℚ)
    (env : CloseCallEnv) : Bool :=
  match env.postStatus with
  | none => false
  | some _ =>
    if env.retCode = 0 then
      match env.statusQuery with
      | none => false
      | some os => os = "Filled"
    else false

/-- One iteration of the close loop (lines 260-298): dispatch on the
stored position's venue tag, stripping the venue prefix from the id
where the source does. -/
def closeCall (p : HedgePosition) (env : CloseCallEnv) : Bool :=
  match p.type with
  | .binance => BinanceService.closePosition (p.id.replace "binance_" "") p.symbol p.amount env
  | .cme => CMEService.closePosition (p.id.replace "cme_" "") p.amount env
  | .hyperliquid => HyperliquidService.closePosition p.symbol p.amount env
  | .bybit => BybitService.closePosition p.symbol p.amount env

/-- The `allClosed` accumulation over the position list: the i-th close
call reads the i-th call environment; every position is attempted (a
failure never stops the loop). -/
def closeLoop (envs : ℕ → CloseCallEnv) : List HedgePosition → ℕ → Bool
  | [], _ => true
  | p :: rest, i => closeCall p (envs i) && closeLoop envs rest (i + 1)

/-- `HedgeService.closeHedgePositions` (lines 255-305): fetch the stored
positions, attempt one close per position, return whether all closed,
the resulting store (the source writes nothing back), and the number of
venue close calls made. -/
def closeHedgePositions (s : Store) (txHash : String) (envs : ℕ → CloseCallEnv) :
    Bool × Store × ℕ :=
  let positions := getHedgeByTxHash s txHash
  (closeLoop envs positions 0, s, positions.length)

/-! ### Deposit monitor (`src/services/depositMonitor.ts`) -/

/-- `DepositMonitor.storeDepositEvent` (lines 105-119): SETEX the event
under `deposit:${txHash}` and ZADD the hash into the time-ordered index
(member unique, score replaced on re-add). -/
def DepositMonitor.storeDepositEvent (ev : DepositEvent) (s : Store) : Store :=
  { s with deposits := upsert ev.transactionHash ev s.deposits
           depIndex := upsert ev.transactionHash (ev.timestamp : ℚ) s.depIndex }

/-- `DepositMonitor.queueHedgeRequest` (lines 121-131): LPUSH onto the
work queue (duplicates allowed). -/
def DepositMonitor.queueHedgeRequest (r : HedgeRequest) (s : Store) : Store :=
  { s with hedgeQueue := r :: s.hedgeQueue }

/-- `DepositMonitor.updateLastProcessedBlock` (lines 133-142) applied to
the pair (in-memory lastProcessedBlock, store). -/
def DepositMonitor.updateLastProcessedBlock (blockNumber : ℕ) (st : ℕ × Store) : ℕ × Store :=
  if blockNumber > st.1 then
    (blockNumber, { st.2 with lastProcessedBlock := some blockNumber })
  else st

/-- `DepositMonitor.handleDepositEvent` (lines 65-103), given the
decoded event arguments, the wei amounts, and the wall-clock time of the
handling: store the deposit, queue a hedge request, advance the last
processed block. -/
def DepositMonitor.handleDepositEvent (user : String) (amountWei krwwWei : ℕ)
    (blockNumber : ℕ) (txHash : String) (now : ℕ) (st : ℕ × Store) : ℕ × Store :=
  let ev : DepositEvent :=
    { user := user
      amount := (amountWei : ℚ) / 10 ^ 18
      krwwMinted := (krwwWei : ℚ) / 10 ^ 18
      blockNumber := blockNumber
      transactionHash := txHash
      timestamp := now }
  let s1 := DepositMonitor.storeDepositEvent ev st.2
  let req : HedgeRequest :=
    { depositTxHash := ev.transactionHash
      ethAmount := ev.amount
      krwwAmount := ev.krwwMinted
      userAddress := ev.user }
  let s2 := DepositMonitor.queueHedgeRequest req s1
  DepositMonitor.updateLastProcessedBlock blockNumber (st.1, s2)

/-- Replaying the same decoded chain event once per element of `nows`
(each delivery happens at its own wall-clock time) through the common
event handler. -/
def replayDeposit (user : String) (amountWei krwwWei blockNumber : ℕ)
    (txHash : String) (nows : List ℕ) (st : ℕ × Store) : ℕ × Store :=
  nows.foldl (fun acc t =>
    DepositMonitor.handleDepositEvent user amountWei krwwWei blockNumber txHash t acc) st

/-- Number of entries of an association list carrying key `k`. -/
def keyCount {α β : Type} [DecidableEq α] (k : α) (l : List (α × β)) : ℕ :=
  (l.filter (fun e => e.1 = k)).length

/-! ### The contract-count conversion the specification describes -/

/-- Modelled from the spec: the currency-futures conversion as the
specification words it — the notional USD value divided by the USD value
of one fixed-size contract (the fixed contract size of 125000 multiplied
by the venue-quoted KRW/USD price), rounded down.  Kept separate from
`cmeNumberOfContracts`, the formula the source actually computes, so the
two can be compared. -/
def specCMEContractCount (usdValue krwusdPrice : ℚ) : ℤ :=
  ⌊usdValue / (125000 * krwusdPrice)⌋

/-! ### Concrete scenario inputs used by the witnesses and
counterexamples -/

/-- A Hyperliquid run whose order is immediately filled. -/
def hlOpenEnv : HLEnv :=
  { markPx := some 2000
    postResult := some ("ok", some { resting := some 7, filled := some (1, 2000) })
    now := 3 }

/-- A Bybit run whose order is immediately filled. -/
def bybitOpenEnv : BybitEnv :=
  { tickerPrice := some 2000
    instrument := some (1, 1)
    orderResult := some (0, "9")
    orderStatusResult := some { orderStatus := "Filled", avgPrice := 2000 }
    now := 4 }

/-- A Binance run whose very first HTTP call throws, so the adapter
rejects. -/
def binanceThrowEnv : BinanceEnv :=
  { exchangeInfoResult := none, priceResult := none, orderResult := none, now := 0 }

/-- A Binance run whose order is immediately filled. -/
def binanceOpenEnv : BinanceEnv :=
  { exchangeInfoResult := some (some (some { minQty := 1, stepSize := 1 }))
    priceResult := some 2000
    orderResult := some { orderId := "11", executedQty := 1, cummulativeQuoteQty := 2000,
                          status := "FILLED", transactTime := 5 }
    now := 0 }

/-- A CME environment (unused when the CME branch already rejected on
the price fetch). -/
def cmeAnyEnv : CMEEnv :=
  { priceResult := some 1, orderResult := none, now := 9 }

/-- A CME run where every HTTP call succeeds (fallback quote rate, a
fillable order): the adapter still fails because the computed contract
count is zero. -/
def cmeSmallEnv : CMEEnv :=
  { priceResult := some (3/4000)
    orderResult := some { orderId := "1", price := 1, status := "FILLED", timestamp := 5 }
    now := 9 }

/-- A hedge request for a 1 ETH deposit. -/
def reqA : HedgeRequest :=
  { depositTxHash := "0xaaa", ethAmount := 1, krwwAmount := 1300000, userAddress := "0xuser" }

/-- An execution in which exactly two adapter calls throw (Binance and
the CME branch via its ETH price fetch) and two fulfil with open
positions (Hyperliquid, Bybit). -/
def envTwoThrow : ExecEnv :=
  { binance := binanceThrowEnv, ethPrice := none, cme := cmeAnyEnv,
    hl := hlOpenEnv, bybit := bybitOpenEnv, now := 10 }

/-- An execution in which all four adapter calls fulfil, but the CME
one fulfils with a synthetic `failed` position (its contract count is
zero for a $2000 hedge). -/
def envAllFulfil : ExecEnv :=
  { binance := binanceOpenEnv, ethPrice := some 2000, cme := cmeSmallEnv,
    hl := hlOpenEnv, bybit := bybitOpenEnv, now := 10 }

/-- A stored open Binance position. -/
def posB : HedgePosition :=
  { id := "binance_11", type := .binance, symbol := "ETHUSDT", side := "short",
    amount := 1, price := 2000, status := .opened, createdAt := 5, updatedAt := 5 }

/-- A stored open Hyperliquid position. -/
def posH : HedgePosition :=
  { id := "hyperliquid_7", type := .hyperliquid, symbol := "ETH", side := "short",
    amount := 1, price := 2000, status := .opened, createdAt := 3, updatedAt := 3 }

/-- A stored open Bybit position. -/
def posY : HedgePosition :=
  { id := "bybit_9", type := .bybit, symbol := "ETHUSDT", side := "short",
    amount := 1, price := 2000, status := .opened, createdAt := 4, updatedAt := 4 }

/-- A store holding three open positions for deposit `0xccc`. -/
def closeStore : Store :=
  { emptyStore with
      positions := [(("0xccc", "binance"), posB), (("0xccc", "hyperliquid"), posH),
                    (("0xccc", "bybit"), posY)]
      posIndex := [("0xccc", "binance_11"), ("0xccc", "hyperliquid_7"), ("0xccc", "bybit_9")] }

/-- Close-call outcomes: the first call (Binance) fills, the second
(Hyperliquid) fills, the third (Bybit) throws. -/
def closeEnvs : ℕ → CloseCallEnv := fun i =>
  if i = 0 then { postStatus := some "FILLED", retCode := 0, statusQuery := none, hlFilled := false }
  else if i = 1 then { postStatus := some "ok", retCode := 0, statusQuery := none, hlFilled := true }
  else { postStatus := none, retCode := 0, statusQuery := none, hlFilled := false }

/-- A store whose only record for deposit `0xddd` is a failed CME
fallback position. -/
def failedOnlyStore : Store :=
  { emptyStore with
      positions := [(("0xddd", "cme"), cmeFallbackPosition 2000 7)]
      posIndex := [("0xddd", "cme_fallback_7")] }

/-- A hedge request for the deposit of `failedOnlyStore`. -/
def reqD : HedgeRequest :=
  { depositTxHash := "0xddd", ethAmount := 1, krwwAmount := 1, userAddress := "0xu" }

/-! ## Lemmas about the store primitives -/

lemma lookupA_upsert {α β : Type} [DecidableEq α] (k k1 : α) (v : β) (l : List (α × β)) :
    lookupA k (upsert k1 v l) = if k1 = k then some v else lookupA k l := by
  induction l with
  | nil => simp [upsert, lookupA]
  | cons e rest ih =>
    obtain ⟨k2, v2⟩ := e
    by_cases h2 : k2 = k1
    · subst h2
      by_cases hk : k2 = k <;> simp [upsert, lookupA, hk]
    · by_cases hk : k2 = k
      · subst hk
        have hne : k1 ≠ k2 := fun h => h2 h.symm
        simp [upsert, lookupA, h2, ih, hne]
      · simp [upsert, lookupA, h2, hk, ih]

lemma lookupA_upsert_self {α β : Type} [DecidableEq α] (k : α) (v : β) (l : List (α × β)) :
    lookupA k (upsert k v l) = some v := by
  simp [lookupA_upsert]

lemma lookupA_upsert_isSome {α β : Type} [DecidableEq α] (k k1 : α) (v : β)
    (l : List (α × β)) (h : (lookupA k l).isSome) :
    (lookupA k (upsert k1 v l)).isSome := by
  rw [lookupA_upsert]
  by_cases hk : k1 = k <;> simp [hk, h]

lemma mem_sAdd_self {α : Type} [DecidableEq α] (x : α) (l : List α) : x ∈ sAdd x l := by
  by_cases h : x ∈ l <;> simp [sAdd, h]

lemma mem_sAdd_of_mem {α : Type} [DecidableEq α] (x y : α) (l : List α) (h : x ∈ l) :
    x ∈ sAdd y l := by
  by_cases hy : y ∈ l <;> simp [sAdd, hy, h]

lemma keyCount_upsert {α β : Type} [DecidableEq α] (k : α) (v : β) (l : List (α × β)) :
    keyCount k (upsert k v l) = max 1 (keyCount k l) := by
  induction l with
  | nil => simp [upsert, keyCount]
  | cons e rest ih =>
    obtain ⟨k2, v2⟩ := e
    by_cases h2 : k2 = k
    · subst h2
      simp [upsert, keyCount, List.filter]
    · simp only [upsert, if_neg h2, keyCount, List.filter] at ih ⊢
      simp [h2, ih]

lemma keyCount_upsert_of_le_one {α β : Type} [DecidableEq α] (k : α) (v : β)
    (l : List (α × β)) (h : keyCount k l ≤ 1) : keyCount k (upsert k v l) = 1 := by
  rw [keyCount_upsert]
  omega

/-! ## Lemmas about position ids and the index lookup -/

lemma venueKeyOfId_bybit_append (r : String) :
    venueKeyOfId ("bybit_" ++ r) = "bybit" := by
  simp [venueKeyOfId, String.data_append]

lemma bybit_pos_key (symbol : String) (amt : ℚ) (env : BybitEnv) :
    venueKeyOfId (BybitService.createShortPosition symbol amt env).id = "bybit"
    ∧ (BybitService.createShortPosition symbol amt env).type = .bybit := by
  rcases env with ⟨_ | tp, _ | ⟨qs, mq⟩, _ | ⟨rc, oid⟩, _ | os, n⟩ <;>
    (try simp [BybitService.createShortPosition, bybitFailedPosition, venueKeyOfId_bybit_append]) <;>
    (try split) <;>
    (try simp [venueKeyOfId_bybit_append])

lemma getHedge_ne_nil (s : Store) (tx pid : String)
    (h1 : (tx, pid) ∈ s.posIndex)
    (h2 : (lookupA (tx, venueKeyOfId pid) s.positions).isSome) :
    getHedgeByTxHash s tx ≠ [] := by
  intro hnil
  rw [getHedgeByTxHash, List.filterMap_eq_nil_iff] at hnil
  have hmem : pid ∈ sMembersIndex s tx := by
    simp only [sMembersIndex, List.mem_map, List.mem_filter]
    exact ⟨(tx, pid), ⟨h1, by simp⟩, rfl⟩
  have := hnil pid hmem
  rw [this] at h2
  simp at h2

/-! ## Lemmas about the store fold inside `executeHedge` -/

lemma foldl_store_lookup_isSome (tx : String) (ps : List HedgePosition) (s : Store)
    (k : String × String) (h : (lookupA k s.positions).isSome) :
    (lookupA k ((ps.foldl (fun st p => storeHedgePosition tx p st) s).positions)).isSome := by
  induction ps generalizing s with
  | nil => exact h
  | cons q rest ih =>
    exact ih _ (lookupA_upsert_isSome _ _ _ _ h)

lemma foldl_store_index_mem (tx : String) (ps : List HedgePosition) (s : Store)
    (e : String × String) (h : e ∈ s.posIndex) :
    e ∈ (ps.foldl (fun st p => storeHedgePosition tx p st) s).posIndex := by
  induction ps generalizing s with
  | nil => exact h
  | cons q rest ih =>
    exact ih _ (mem_sAdd_of_mem _ _ _ h)

lemma foldl_store_mem (tx : String) (p : HedgePosition) (ps : List HedgePosition)
    (s : Store) (h : p ∈ ps) :
    (lookupA (tx, p.type.str)
        ((ps.foldl (fun st q => storeHedgePosition tx q st) s).positions)).isSome
    ∧ (tx, p.id) ∈ (ps.foldl (fun st q => storeHedgePosition tx q st) s).posIndex := by
  induction ps generalizing s with
  | nil => cases h
  | cons q rest ih =>
    rcases List.mem_cons.mp h with rfl | hrest
    · rw [List.foldl_cons]
      constructor
      · apply foldl_store_lookup_isSome
        simp [storeHedgePosition, lookupA_upsert_self]
      · apply foldl_store_index_mem
        simp [storeHedgePosition, mem_sAdd_self]
    · rw [List.foldl_cons]
      exact ih _ hrest

/-! ## Structure of one `executeHedge` run -/

lemma executeHedge_of_existing (request : HedgeRequest) (env : ExecEnv) (s : Store)
    (h : getHedgeByTxHash s request.depositTxHash ≠ []) :
    executeHedge request env s = (s, 0) := by
  have : (getHedgeByTxHash s request.depositTxHash).length > 0 :=
    List.length_pos.mpr h
  simp [executeHedge, this]

lemma executeHedge_log (request : HedgeRequest) (env : ExecEnv) (s : Store)
    (h : getHedgeByTxHash s request.depositTxHash = []) :
    lookupA request.depositTxHash (executeHedge request env s).1.logs =
      some { txHash := request.depositTxHash
             ethAmount := request.ethAmount
             krwwAmount := request.krwwAmount
             userAddress := request.userAddress
             positions := (fanOutResults request env).filterMap exceptValue
             successCount := ((fanOutResults request env).filter exceptIsOk).length
             totalHedges := 2
             timestamp := env.now } := by
  have hz : ¬ (getHedgeByTxHash s request.depositTxHash).length > 0 := by
    simp [h]
  simp only [executeHedge, if_neg hz, logHedgeExecution]
  exact lookupA_upsert_self _ _ _

lemma executeHedge_positions_of_empty (request : HedgeRequest) (env : ExecEnv) (s : Store)
    (h : getHedgeByTxHash s request.depositTxHash = []) :
    (executeHedge request env s).1.positions =
      (((fanOutResults request env).filterMap exceptValue).foldl
        (fun st p => storeHedgePosition request.depositTxHash p st) s).positions := by
  have hz : ¬ (getHedgeByTxHash s request.depositTxHash).length > 0 := by
    simp [h]
  simp [executeHedge, hz, logHedgeExecution]

lemma executeHedge_posIndex_of_empty (request : HedgeRequest) (env : ExecEnv) (s : Store)
    (h : getHedgeByTxHash s request.depositTxHash = []) :
    (executeHedge request env s).1.posIndex =
      (((fanOutResults request env).filterMap exceptValue).foldl
        (fun st p => storeHedgePosition request.depositTxHash p st) s).posIndex := by
  have hz : ¬ (getHedgeByTxHash s request.depositTxHash).length > 0 := by
    simp [h]
  simp [executeHedge, hz, logHedgeExecution]

lemma bybit_mem_fanOut (request : HedgeRequest) (env : ExecEnv) :
    BybitService.createShortPosition "ETHUSDT" request.ethAmount env.bybit
      ∈ (fanOutResults request env).filterMap exceptValue := by
  rw [List.mem_filterMap]
  exact ⟨executeBybitHedge request env.bybit, by simp [fanOutResults],
    by simp [executeBybitHedge, exceptValue]⟩

lemma getHedge_after_exec (request : HedgeRequest) (env : ExecEnv) (s : Store)
    (h : getHedgeByTxHash s request.depositTxHash = []) :
    getHedgeByTxHash (executeHedge request env s).1 request.depositTxHash ≠ [] := by
  obtain ⟨hkey, htype⟩ := bybit_pos_key "ETHUSDT" request.ethAmount env.bybit
  have hmem := bybit_mem_fanOut request env
  obtain ⟨hlook, hidx⟩ := foldl_store_mem request.depositTxHash
    (BybitService.createShortPosition "ETHUSDT" request.ethAmount env.bybit)
    ((fanOutResults request env).filterMap exceptValue) s hmem
  apply getHedge_ne_nil (executeHedge request env s).1 request.depositTxHash
    (BybitService.createShortPosition "ETHUSDT" request.ethAmount env.bybit).id
  · rw [executeHedge_posIndex_of_empty request env s h]
    exact hidx
  · rw [executeHedge_positions_of_empty request env s h, hkey]
    have hstr : VenueType.str (BybitService.createShortPosition "ETHUSDT"
        request.ethAmount env.bybit).type = "bybit" := by
      rw [htype]
      rfl
    rw [← hstr]
    exact hlook

/-! ## Counting fulfilled results -/

lemma filter_ok_length_eq {ε α : Type} (l : List (Except ε α)) :
    (l.filter exceptIsOk).length = (l.filterMap exceptValue).length := by
  induction l with
  | nil => rfl
  | cons a rest ih => cases a <;> simp [exceptIsOk, exceptValue, ih]

/-! ## The close loop -/

lemma closeLoop_eq_true_iff (envs : ℕ → CloseCallEnv) (ps : List HedgePosition) (i : ℕ) :
    closeLoop envs ps i = true ↔
      ∀ j (hj : j < ps.length), closeCall (ps.get ⟨j, hj⟩) (envs (i + j)) = true := by
  induction ps generalizing i with
  | nil => simp [closeLoop]
  | cons p rest ih =>
    simp only [closeLoop, Bool.and_eq_true, ih]
    constructor
    · rintro ⟨hp, hrest⟩ j hj
      cases j with
      | zero => simpa using hp
      | succ j1 =>
        have h2 : j1 < rest.length := by simpa using Nat.lt_of_succ_lt_succ hj
        have hstep := hrest j1 h2
        simp only [List.get_cons_succ]
        have heq : i + (j1 + 1) = i + 1 + j1 := by omega
        rw [heq]
        exact hstep
    · intro hall
      constructor
      · simpa using hall 0 (by simp)
      · intro j hj
        have hj2 : j + 1 < (p :: rest).length := by simpa using Nat.succ_lt_succ hj
        have hstep := hall (j + 1) hj2
        simp only [List.get_cons_succ] at hstep
        have heq : i + 1 + j = i + (j + 1) := by omega
        rw [heq]
        exact hstep

/-! ## Deposit replay counting -/

lemma handleDepositEvent_deposits_count (user : String) (amountWei krwwWei blockNumber : ℕ)
    (txHash : String) (now : ℕ) (st : ℕ × Store) :
    keyCount txHash
        (DepositMonitor.handleDepositEvent user amountWei krwwWei blockNumber txHash now st).2.deposits
      = max 1 (keyCount txHash st.2.deposits) := by
  simp only [DepositMonitor.handleDepositEvent, DepositMonitor.storeDepositEvent,
    DepositMonitor.queueHedgeRequest, DepositMonitor.updateLastProcessedBlock]
  split <;> exact keyCount_upsert _ _ _

lemma handleDepositEvent_depIndex_count (user : String) (amountWei krwwWei blockNumber : ℕ)
    (txHash : String) (now : ℕ) (st : ℕ × Store) :
    keyCount txHash
        (DepositMonitor.handleDepositEvent user amountWei krwwWei blockNumber txHash now st).2.depIndex
      = max 1 (keyCount txHash st.2.depIndex) := by
  simp only [DepositMonitor.handleDepositEvent, DepositMonitor.storeDepositEvent,
    DepositMonitor.queueHedgeRequest, DepositMonitor.updateLastProcessedBlock]
  split <;> exact keyCount_upsert _ _ _

lemma replayDeposit_counts (user : String) (amountWei krwwWei blockNumber : ℕ)
    (txHash : String) (nows : List ℕ) (st : ℕ × Store)
    (hne : nows ≠ [])
    (hd : keyCount txHash st.2.deposits ≤ 1)
    (hi : keyCount txHash st.2.depIndex ≤ 1) :
    keyCount txHash
        (replayDeposit user amountWei krwwWei blockNumber txHash nows st).2.deposits = 1
    ∧ keyCount txHash
        (replayDeposit user amountWei krwwWei blockNumber txHash nows st).2.depIndex = 1 := by
  induction nows generalizing st with
  | nil => exact absurd rfl hne
  | cons t rest ih =>
    rcases rest with _ | ⟨t2, rest2⟩
    · simp only [replayDeposit, List.foldl_cons, List.foldl_nil]
      rw [handleDepositEvent_deposits_count, handleDepositEvent_depIndex_count]
      omega
    · have hstep := handleDepositEvent_deposits_count user amountWei krwwWei blockNumber txHash t st
      have hstep2 := handleDepositEvent_depIndex_count user amountWei krwwWei blockNumber txHash t st
      have := ih (DepositMonitor.handleDepositEvent user amountWei krwwWei blockNumber txHash t st)
        (by simp) (by omega) (by omega)
      simpa [replayDeposit, List.foldl_cons] using this

/-! ## Claim theorems -/

/-- Claim C3: in the absence of concurrency, running the execution
routine twice in sequence for the same depositTxHash leaves exactly the
state of the first run: the second call looks up the existing positions,
makes no venue calls (0 adapter invocations) and writes nothing (the
store is returned unchanged). -/
theorem claim3_second_call_noop (request : HedgeRequest) (env1 env2 : ExecEnv) (s : Store) :
    executeHedge request env2 (executeHedge request env1 s).1
      = ((executeHedge request env1 s).1, 0) := by
  by_cases h : getHedgeByTxHash s request.depositTxHash = []
  · exact executeHedge_of_existing _ _ _ (getHedge_after_exec request env1 s h)
  · rw [executeHedge_of_existing request env1 s h]
    exact executeHedge_of_existing _ _ _ h

/-- Claim C7: whenever at least one HedgePosition record is stored for a
deposit transaction hash — failed-state records included — the execution
routine returns at once: no venue adapter is invoked (0 calls) and the
store is unchanged. -/
theorem claim7_skip_when_positions_exist (request : HedgeRequest) (env : ExecEnv) (s : Store)
    (h : getHedgeByTxHash s request.depositTxHash ≠ []) :
    executeHedge request env s = (s, 0) :=
  executeHedge_of_existing request env s h

/-- Witness for C7: a store whose only record for the deposit is a
`failed` CME fallback position still suppresses re-execution. -/
theorem claim7_witness :
    getHedgeByTxHash failedOnlyStore reqD.depositTxHash ≠ []
    ∧ executeHedge reqD envTwoThrow failedOnlyStore = (failedOnlyStore, 0) := by
  have h : getHedgeByTxHash failedOnlyStore reqD.depositTxHash ≠ [] := by decide
  exact ⟨h, claim7_skip_when_positions_exist reqD envTwoThrow failedOnlyStore h⟩

/-- Claim C8: for a transaction hash with no stored HedgePosition
records (unknown hash, or a lookup that yielded the empty list),
`closeHedgePositions` makes no venue close call and returns true. -/
theorem claim8_close_empty_true (s : Store) (txHash : String) (envs : ℕ → CloseCallEnv)
    (h : getHedgeByTxHash s txHash = []) :
    closeHedgePositions s txHash envs = (true, s, 0) := by
  simp [closeHedgePositions, h, closeLoop]

/-- Witness for C8: the empty store holds nothing for `0xnone`, and the
close endpoint reports success with zero venue calls. -/
theorem claim8_witness :
    getHedgeByTxHash emptyStore "0xnone" = []
    ∧ closeHedgePositions emptyStore "0xnone" closeEnvs = (true, emptyStore, 0) :=
  ⟨rfl, claim8_close_empty_true emptyStore "0xnone" closeEnvs rfl⟩

/-- Claim C2 (amended): in every ExecutionLog written by the
orchestrator, `successCount` equals the number of HedgePosition records
in the log — the number of fulfilled adapter calls, which may include
positions whose state is `failed` (it is not the count of non-failed
positions). -/
theorem claim2_amended (request : HedgeRequest) (env : ExecEnv) (s : Store)
    (h : getHedgeByTxHash s request.depositTxHash = []) :
    ∃ l, lookupA request.depositTxHash (executeHedge request env s).1.logs = some l
      ∧ l.successCount = l.positions.length :=
  ⟨_, executeHedge_log request env s h, filter_ok_length_eq _⟩

/-- Witness for the amended C2 at a concrete execution. -/
theorem claim2_amended_witness :
    getHedgeByTxHash emptyStore reqA.depositTxHash = []
    ∧ ∃ l, lookupA reqA.depositTxHash (executeHedge reqA envAllFulfil emptyStore).1.logs = some l
        ∧ l.successCount = l.positions.length :=
  ⟨rfl, claim2_amended reqA envAllFulfil emptyStore rfl⟩

/-- Claim C4 (amended): `closeHedgePositions` returns true exactly when
every stored position's close call succeeded (so false when one venue
fails), and it never writes to the store — no stored record changes
state, not even for the successfully closed positions. -/
theorem claim4_amended (s : Store) (txHash : String) (envs : ℕ → CloseCallEnv) :
    (closeHedgePositions s txHash envs).2.1 = s
    ∧ ((closeHedgePositions s txHash envs).1 = true ↔
        ∀ j (hj : j < (getHedgeByTxHash s txHash).length),
          closeCall ((getHedgeByTxHash s txHash).get ⟨j, hj⟩) (envs j) = true) := by
  refine ⟨rfl, ?_⟩
  simpa using closeLoop_eq_true_iff envs (getHedgeByTxHash s txHash) 0

/-- Witness for the amended C4: the three-position close run leaves the
store untouched. -/
theorem claim4_amended_witness :
    (closeHedgePositions closeStore "0xccc" closeEnvs).2.1 = closeStore :=
  (claim4_amended closeStore "0xccc" closeEnvs).1

/-- Claim C10: replaying the same chain deposit event any number of
times (at least once) leaves exactly one stored DepositEvent keyed by
the transaction hash and exactly one entry for it in the time-ordered
deposits index. -/
theorem claim10_deposit_idempotent (user : String) (amountWei krwwWei blockNumber : ℕ)
    (txHash : String) (nows : List ℕ) (st : ℕ × Store)
    (hne : nows ≠ [])
    (hd : keyCount txHash st.2.deposits ≤ 1)
    (hi : keyCount txHash st.2.depIndex ≤ 1) :
    keyCount txHash
        (replayDeposit user amountWei krwwWei blockNumber txHash nows st).2.deposits = 1
    ∧ keyCount txHash
        (replayDeposit user amountWei krwwWei blockNumber txHash nows st).2.depIndex = 1 :=
  replayDeposit_counts user amountWei krwwWei blockNumber txHash nows st hne hd hi

/-- Witness for C10: replaying one concrete deposit event twice against
the empty store yields one record and one index entry. -/
theorem claim10_witness :
    (([3, 9] : List ℕ) ≠ []
      ∧ keyCount "0xtx" (0, emptyStore).2.deposits ≤ 1
      ∧ keyCount "0xtx" (0, emptyStore).2.depIndex ≤ 1)
    ∧ (keyCount "0xtx" (replayDeposit "0xu" 1 1 5 "0xtx" [3, 9] (0, emptyStore)).2.deposits = 1
      ∧ keyCount "0xtx" (replayDeposit "0xu" 1 1 5 "0xtx" [3, 9] (0, emptyStore)).2.depIndex = 1) :=
  ⟨⟨by simp, by simp [emptyStore, keyCount], by simp [emptyStore, keyCount]⟩,
    claim10_deposit_idempotent "0xu" 1 1 5 "0xtx" [3, 9] (0, emptyStore)
      (by simp) (by simp [emptyStore, keyCount]) (by simp [emptyStore, keyCount])⟩

/-- Claim C1 (counterexample): in the concrete execution where exactly 2
adapter calls fulfil (both with non-failed positions) and 2 throw
(Binance and the CME branch), the written ExecutionLog has successCount
2 but contains only 2 HedgePosition records, not 4, and none of them is
a failed record — the throwing venues leave no record at all, refuting
"exactly 4 records ... never fewer than 4". -/
theorem claim1_counterexample :
    ((fanOutResults reqA envTwoThrow).filter exceptIsOk).length = 2
    ∧ (fanOutResults reqA envTwoThrow).countP (fun r => !(exceptIsOk r)) = 2
    ∧ (lookupA reqA.depositTxHash (executeHedge reqA envTwoThrow emptyStore).1.logs).map
        ExecutionLog.successCount = some 2
    ∧ (lookupA reqA.depositTxHash (executeHedge reqA envTwoThrow emptyStore).1.logs).map
        (fun l => l.positions.length) = some 2
    ∧ (lookupA reqA.depositTxHash (executeHedge reqA envTwoThrow emptyStore).1.logs).map
        (fun l => l.positions.countP (fun p => decide (p.status = PositionStatus.failed)))
      = some 0 := by
  have h0 : getHedgeByTxHash emptyStore reqA.depositTxHash = [] := rfl
  rw [executeHedge_log reqA envTwoThrow emptyStore h0]
  refine ⟨?_, ?_, ?_, ?_, ?_⟩ <;>
    simp [fanOutResults, envTwoThrow, reqA, executeBinanceHedge, executeCMEHedge,
      executeHyperliquidHedge, executeBybitHedge, BinanceService.createShortPosition,
      binanceThrowEnv, cmeAnyEnv, HyperliquidService.createShortPosition, hlOpenEnv,
      BybitService.createShortPosition, bybitOpenEnv, exceptIsOk, exceptValue]

/-- Claim C1 (amended): when exactly 2 adapter calls succeed and 2 throw
— which in this code means Binance and the CME branch reject while
Hyperliquid and Bybit fulfil with non-failed positions — the written
ExecutionLog has successCount 2 and contains exactly the 2 fulfilled
HedgePosition records, neither of them failed; the throwing venues
produce no record, so the log holds 2 records, not 4. -/
theorem claim1_amended (request : HedgeRequest) (env : ExecEnv) (s : Store)
    (h0 : getHedgeByTxHash s request.depositTxHash = [])
    (hb : executeBinanceHedge request env.binance = .error ())
    (hc : env.ethPrice = none)
    (hh : (HyperliquidService.createShortPosition "ETH" request.ethAmount env.hl).status
        ≠ PositionStatus.failed)
    (hy : (BybitService.createShortPosition "ETHUSDT" request.ethAmount env.bybit).status
        ≠ PositionStatus.failed) :
    ∃ l, lookupA request.depositTxHash (executeHedge request env s).1.logs = some l
      ∧ l.successCount = 2
      ∧ l.positions.length = 2
      ∧ l.positions.countP (fun p => decide (p.status = PositionStatus.failed)) = 0 := by
  refine ⟨_, executeHedge_log request env s h0, ?_, ?_, ?_⟩ <;>
    simp [fanOutResults, hb, hc, executeCMEHedge, executeHyperliquidHedge,
      executeBybitHedge, exceptIsOk, exceptValue, hh, hy]

/-- Witness for the amended C1 at the concrete two-throw execution. -/
theorem claim1_amended_witness :
    (getHedgeByTxHash emptyStore reqA.depositTxHash = []
      ∧ executeBinanceHedge reqA envTwoThrow.binance = .error ()
      ∧ envTwoThrow.ethPrice = none
      ∧ (HyperliquidService.createShortPosition "ETH" reqA.ethAmount envTwoThrow.hl).status
          ≠ PositionStatus.failed
      ∧ (BybitService.createShortPosition "ETHUSDT" reqA.ethAmount envTwoThrow.bybit).status
          ≠ PositionStatus.failed)
    ∧ ∃ l, lookupA reqA.depositTxHash (executeHedge reqA envTwoThrow emptyStore).1.logs = some l
        ∧ l.successCount = 2 ∧ l.positions.length = 2
        ∧ l.positions.countP (fun p => decide (p.status = PositionStatus.failed)) = 0 := by
  have hh : (HyperliquidService.createShortPosition "ETH" reqA.ethAmount envTwoThrow.hl).status
      ≠ PositionStatus.failed := by decide
  have hy : (BybitService.createShortPosition "ETHUSDT" reqA.ethAmount envTwoThrow.bybit).status
      ≠ PositionStatus.failed := by decide
  exact ⟨⟨rfl, rfl, rfl, hh, hy⟩, claim1_amended reqA envTwoThrow emptyStore rfl rfl rfl hh hy⟩

/-- Claim C2 (counterexample): in the concrete execution where all four
adapter calls fulfil but the CME adapter fulfils with a synthetic
`failed` position, the written ExecutionLog has successCount 4 while
only 3 of its positions are non-failed — refuting "successCount equals
the number of positions whose state is not failed". -/
theorem claim2_counterexample :
    (lookupA reqA.depositTxHash (executeHedge reqA envAllFulfil emptyStore).1.logs).map
        ExecutionLog.successCount = some 4
    ∧ (lookupA reqA.depositTxHash (executeHedge reqA envAllFulfil emptyStore).1.logs).map
        (fun l => l.positions.countP (fun p => decide (¬ p.status = PositionStatus.failed)))
      = some 3 := by
  have h0 : getHedgeByTxHash emptyStore reqA.depositTxHash = [] := rfl
  rw [executeHedge_log reqA envAllFulfil emptyStore h0]
  have hcme1 : cmeNumberOfContracts (1 * 2000) (3/4000) = 0 := by
    rw [cmeNumberOfContracts, Int.floor_eq_iff]
    constructor <;> norm_num
  have hcme2 : cmeNumberOfContracts 2000 (3/4000) = 0 := by
    rw [cmeNumberOfContracts, Int.floor_eq_iff]
    constructor <;> norm_num
  refine ⟨?_, ?_⟩ <;>
    simp [fanOutResults, envAllFulfil, reqA, executeBinanceHedge, executeCMEHedge,
      executeHyperliquidHedge, executeBybitHedge, BinanceService.createShortPosition,
      binanceOpenEnv, CMEService.createKRWUSDShortPosition, CMEService.getCurrentKRWUSDPrice,
      cmeSmallEnv, hcme1, hcme2, cmeFallbackPosition, HyperliquidService.createShortPosition,
      hlOpenEnv, BybitService.createShortPosition, bybitOpenEnv, exceptIsOk, exceptValue]

/-- Claim C4 (counterexample): with 3 stored open positions of which
exactly the third close call fails, `closeHedgePositions` does return
false (2 closes succeed, 1 fails), but the store is returned unchanged
and not a single stored position is in state `closed` afterwards —
refuting "exactly the 2 successfully-closed positions transition their
stored state (to closed)". -/
theorem claim4_counterexample :
    (closeHedgePositions closeStore "0xccc" closeEnvs).1 = false
    ∧ (closeHedgePositions closeStore "0xccc" closeEnvs).2.1 = closeStore
    ∧ closeCall posB (closeEnvs 0) = true
    ∧ closeCall posH (closeEnvs 1) = true
    ∧ closeCall posY (closeEnvs 2) = false
    ∧ (getHedgeByTxHash (closeHedgePositions closeStore "0xccc" closeEnvs).2.1 "0xccc").countP
        (fun p => decide (p.status = PositionStatus.closed)) = 0 :=
  ⟨by decide, rfl, by decide, by decide, by decide, by decide⟩

/-- Claim C5: the code hard-codes `totalHedges := 2` in every
ExecutionLog although 4 venue adapters are attempted per execution —
the recorded "total venues attempted" is 2, not 4. -/
theorem claim5_totalHedges_bug :
    (fanOutResults reqA envAllFulfil).length = 4
    ∧ (lookupA reqA.depositTxHash (executeHedge reqA envAllFulfil emptyStore).1.logs).map
        ExecutionLog.totalHedges = some 2
    ∧ (2 : ℕ) ≠ 4 := by
  refine ⟨rfl, ?_, by decide⟩
  rw [executeHedge_log reqA envAllFulfil emptyStore rfl]
  rfl

/-- Claim C6: the source computes
`floor(usdValue / (contractSize / krwusdPrice))` instead of the claimed
`floor(usdValue / (contractSize * krwusdPrice))`: at the code's own
fallback rate (0.00075 USD per KRW) a $3000 hedge yields 0 contracts
(so the adapter returns a failed fallback without submitting an order)
while the claimed conversion yields 32 contracts. -/
theorem claim6_contract_count_bug :
    cmeNumberOfContracts 3000 (3/4000) = 0
    ∧ specCMEContractCount 3000 (3/4000) = 32
    ∧ (CMEService.createKRWUSDShortPosition 3000 cmeSmallEnv).status = PositionStatus.failed := by
  have h1 : cmeNumberOfContracts 3000 (3/4000) = 0 := by
    rw [cmeNumberOfContracts, Int.floor_eq_iff]
    constructor <;> norm_num
  have h2 : specCMEContractCount 3000 (3/4000) = 32 := by
    rw [specCMEContractCount, Int.floor_eq_iff]
    constructor <;> norm_num
  refine ⟨h1, h2, ?_⟩
  rw [CMEService.createKRWUSDShortPosition]
  simp only [CMEService.getCurrentKRWUSDPrice, cmeSmallEnv, Option.getD_some]
  rw [if_pos h1]
  rfl

/-- Claim C9: with minimum order increment 0.001 and minimum order size
0.01, a requested size of 0.0456 is rounded down to 0.045 (the
rounded-down value, being at least the minimum) in both the Binance and
the Bybit adapter; in general the adapters use the rounded-down value
whenever it is at least the minimum order size and bump a rounded-down
value of 0 up to the minimum order size. -/
theorem claim9_order_rounding (a : ℚ) :
    (binanceOrderQuantity (57/1250) (1/1000) (1/100) = 9/200
      ∧ bybitPositionSize (57/1250) (1/1000) (1/100) = 9/200)
    ∧ ((1/100 : ℚ) ≤ (⌊a / (1/1000)⌋ : ℚ) * (1/1000) →
        binanceOrderQuantity a (1/1000) (1/100) = (⌊a / (1/1000)⌋ : ℚ) * (1/1000)
        ∧ bybitPositionSize a (1/1000) (1/100) = (⌊a / (1/1000)⌋ : ℚ) * (1/1000))
    ∧ ((⌊a / (1/1000)⌋ : ℚ) * (1/1000) = 0 →
        binanceOrderQuantity a (1/1000) (1/100) = 1/100
        ∧ bybitPositionSize a (1/1000) (1/100) = 1/100) := by
  have hf : (⌊(57/1250 : ℚ) / (1/1000)⌋ : ℤ) = 45 := by
    rw [Int.floor_eq_iff]
    constructor <;> norm_num
  refine ⟨?_, fun h => ?_, fun h => ?_⟩
  · rw [binanceOrderQuantity, bybitPositionSize, hf]
    norm_num [max_eq_left]
  · rw [binanceOrderQuantity, bybitPositionSize]
    exact ⟨max_eq_left h, max_eq_left h⟩
  · rw [binanceOrderQuantity, bybitPositionSize, h]
    constructor <;> exact max_eq_right (by norm_num)

/-- Witness for C9 at the spec's 0.0456 input: the rounded-down value
0.045 is at least the minimum 0.01 and both adapters return it. -/
theorem claim9_witness :
    ((1/100 : ℚ) ≤ (⌊(57/1250 : ℚ) / (1/1000)⌋ : ℚ) * (1/1000))
    ∧ binanceOrderQuantity (57/1250) (1/1000) (1/100)
        = (⌊(57/1250 : ℚ) / (1/1000)⌋ : ℚ) * (1/1000)
    ∧ bybitPositionSize (57/1250) (1/1000) (1/100)
        = (⌊(57/1250 : ℚ) / (1/1000)⌋ : ℚ) * (1/1000) := by
  have hf : (⌊(57/1250 : ℚ) / (1/1000)⌋ : ℤ) = 45 := by
    rw [Int.floor_eq_iff]
    constructor <;> norm_num
  have h : (1/100 : ℚ) ≤ (⌊(57/1250 : ℚ) / (1/1000)⌋ : ℚ) * (1/1000) := by
    rw [hf]
    norm_num
  exact ⟨h, ((claim9_order_rounding (57/1250)).2.1 h).1,
    ((claim9_order_rounding (57/1250)).2.1 h).2⟩
